import Mathlib

/-!
Shallow embedding of `src/course_work/main.go` (KMP substring search with an
animation trace) and proofs of the specification claims.

Go strings are modelled as `List Char` (the code operates on fixed-width code
units); Go `int` indices that are provably non-negative on every reachable
state are modelled as `Nat` (the only field that genuinely takes the value
`-1` is `HighlightPrefixIndex`, modelled as `Int`).  Go slices of `int`
become `List Nat`.  Out-of-range Go indexing (a runtime panic) is modelled
with `List.getD`; the safety claim is settled separately by a bounds-checked
mirror of the search returning `Option`.
-/

namespace KMPGo

abbrev Str := List Char

/-- Go indexing `s[i]` on a string (total model; in-bounds on reachable states). -/
def chAt (s : Str) (i : Nat) : Char := s.getD i default

/-- Go indexing `a[i]` on an `[]int` (total model). -/
def atD (a : List Nat) (i : Nat) : Nat := a.getD i 0

/-- One `Step` record of the Go code (`type Step struct`). -/
structure Step where
  textIndex : Nat
  patternIndex : Nat
  isMatch : Bool
  shift : Bool
  status : String
  failureValue : Nat
  comparisons : Nat
  prefixFunction : List Nat
  highlightPrefixIndex : Int
deriving Repr, DecidableEq

/-- The `KMPResult` record of the Go code. -/
structure KMPResult where
  failureFunction : List Nat
  steps : List Step
  found : Bool
  positions : List Nat
  comparisons : Nat
  error : String
deriving Repr, DecidableEq

/-- The inner `for j > 0 && pattern[i] != pattern[j] { j = failure[j-1] }`
loop of `buildFailureFunction`, with explicit fuel.  Each executed iteration
strictly decreases `j` (because `failure[j-1] <= j-1` on the tables the code
builds), so fuel `j` always suffices; this is proved below. -/
def bffFallback (p : Str) (failure : List Nat) (c : Char) : Nat → Nat → Nat
  | 0, j => j
  | fuel + 1, j =>
    if 0 < j ∧ c ≠ chAt p j then bffFallback p failure c fuel (atD failure (j - 1))
    else j

/-- The body of the `for i := 1; i < m; i++` loop of `buildFailureFunction`:
given the current `j` it returns the value stored into `failure[i]`
(which is also the `j` carried to the next iteration). -/
def bffNext (p : Str) (failure : List Nat) (j i : Nat) : Nat :=
  if chAt p i = chAt p j then j + 1
  else
    let j1 := bffFallback p failure (chAt p i) j j
    if chAt p i = chAt p j1 then j1 + 1 else j1

/-- The outer loop of `buildFailureFunction`, with explicit structural fuel
(the loop runs `i` from `1` while `i < m`, so any fuel `≥ m - i` is exact;
`buildFailureFunction` passes `m`). -/
def bffLoop (p : Str) : Nat → Nat → List Nat → Nat → List Nat
  | 0, _, failure, _ => failure
  | d + 1, i, failure, j =>
    if i < p.length then
      let j1 := bffNext p failure j i
      bffLoop p d (i + 1) (failure.set i j1) j1
    else failure

/-- `buildFailureFunction` from the Go source. -/
def buildFailureFunction (p : Str) : List Nat :=
  bffLoop p p.length 1 ((List.replicate p.length 0).set 0 0) 0

/-- The narration string of a match comparison step. -/
def statusMatchStr (t p : Str) (i j : Nat) : String :=
  "Comparing text[" ++ toString i ++ "]='" ++ String.singleton (chAt t i) ++
    "' with pattern[" ++ toString j ++ "]='" ++ String.singleton (chAt p j) ++
    "': match found. Advancing to text[" ++ toString (i + 1) ++ "] and pattern[" ++
    toString (j + 1) ++ "]."

/-- The narration string of the full-match shift step. -/
def statusFullStr (pos fv : Nat) : String :=
  "Full pattern match found at text index " ++ toString pos ++
    "! Using failure function value " ++ toString fv ++ " to shift pattern to pattern[" ++
    toString fv ++ "]."

/-- The narration string of a mismatch step with `j > 0`. -/
def statusMismatchStr (t p : Str) (i j fv : Nat) : String :=
  "Mismatch at text[" ++ toString i ++ "]='" ++ String.singleton (chAt t i) ++
    "' and pattern[" ++ toString j ++ "]='" ++ String.singleton (chAt p j) ++
    "'. Using failure function value " ++ toString fv ++ " to shift pattern to pattern[" ++
    toString fv ++ "]."

/-- The narration string of the realignment step after a mismatch with `j > 0`. -/
def statusShiftedStr (t : Str) (j i : Nat) : String :=
  "Pattern shifted to align at pattern[" ++ toString j ++ "] with text[" ++ toString i ++
    "]='" ++ String.singleton (chAt t i) ++ "' based on failure function."

/-- The narration string of a mismatch step with `j == 0`. -/
def statusZeroStr (t p : Str) (i : Nat) : String :=
  "Mismatch at text[" ++ toString i ++ "]='" ++ String.singleton (chAt t i) ++
    "' and pattern[0]='" ++ String.singleton (chAt p 0) ++
    "'. No prefix to use, advancing to text[" ++ toString (i + 1) ++ "]."

/-- The `for k := i - m; k < i; k++ { if k >= 0 && k < n { maxPrefix[k] = k-(i-m)+1 } }`
rewrite loop run after a full match (the `k >= 0` half of the Go guard is
automatic over `Nat`; on reachable states `i - m ≥ 0` holds in Go as well). -/
def relabelLoop (n lo : Nat) : Nat → List Nat → Nat → Nat → List Nat
  | 0, a, _, _ => a
  | d + 1, a, k, hi =>
    if k < hi then
      relabelLoop n lo d (if k < n then a.set k (k - lo + 1) else a) (k + 1) hi
    else a

/-- The mutable local state of `searchKMP`'s scan loop. -/
structure ScanState where
  i : Nat
  j : Nat
  comparisons : Nat
  maxPref : List Nat
  positions : List Nat
  steps : List Step
deriving Repr, DecidableEq

/-- One iteration of the `for i < n` scan loop of `searchKMP`. -/
def kmpIter (t p : Str) (failure : List Nat) (s : ScanState) : ScanState :=
  let n := t.length
  let m := p.length
  let cmps := s.comparisons + 1
  let mtc : Bool := chAt t s.i == chAt p s.j
  let step0 : Step :=
    { textIndex := s.i, patternIndex := s.j, isMatch := mtc, shift := false,
      status := "", failureValue := 0, comparisons := cmps,
      prefixFunction := s.maxPref, highlightPrefixIndex := (s.i : Int) }
  if mtc then
    let maxPref1 := if s.j + 1 > atD s.maxPref s.i then s.maxPref.set s.i (s.j + 1) else s.maxPref
    let step1 := { step0 with prefixFunction := maxPref1, status := statusMatchStr t p s.i s.j }
    let i1 := s.i + 1
    let j1 := s.j + 1
    if j1 = m then
      let fv := atD failure (j1 - 1)
      let maxPref2 := relabelLoop n (i1 - m) i1 maxPref1 (i1 - m) i1
      let step2 : Step :=
        { textIndex := i1 - 1, patternIndex := j1 - 1, isMatch := true, shift := true,
          status := statusFullStr (i1 - j1) fv, failureValue := fv, comparisons := cmps,
          prefixFunction := maxPref2, highlightPrefixIndex := -1 }
      { i := i1, j := fv, comparisons := cmps, maxPref := maxPref2,
        positions := s.positions ++ [i1 - j1], steps := s.steps ++ [step1, step2] }
    else
      { i := i1, j := j1, comparisons := cmps, maxPref := maxPref1,
        positions := s.positions, steps := s.steps ++ [step1] }
  else if 0 < s.j then
    let fv := atD failure (s.j - 1)
    let step1 := { step0 with status := statusMismatchStr t p s.i s.j fv, failureValue := fv }
    let step2 : Step :=
      { textIndex := s.i, patternIndex := fv, isMatch := false, shift := true,
        status := statusShiftedStr t fv s.i, failureValue := 0, comparisons := cmps,
        prefixFunction := s.maxPref, highlightPrefixIndex := (s.i : Int) }
    { s with j := fv, comparisons := cmps, steps := s.steps ++ [step1, step2] }
  else
    let step1 := { step0 with status := statusZeroStr t p s.i }
    { s with i := s.i + 1, comparisons := cmps, steps := s.steps ++ [step1] }

/-- The `for i < n` scan loop, with explicit fuel.  Every executed iteration
strictly decreases `(n - i) * (m + 1) + j` (proved below), so the fuel
`kmpFuel` always suffices and the model agrees with the Go loop. -/
def kmpLoop (t p : Str) (failure : List Nat) : Nat → ScanState → ScanState
  | 0, s => s
  | fuel + 1, s =>
    if s.i < t.length then kmpLoop t p failure fuel (kmpIter t p failure s) else s

/-- The scan-local state right after the initialisations in `searchKMP`. -/
def initState (t : Str) : ScanState :=
  { i := 0, j := 0, comparisons := 0, maxPref := List.replicate t.length 0,
    positions := [], steps := [] }

/-- An upper bound on the number of scan-loop iterations, used as fuel. -/
def kmpFuel (t p : Str) : Nat := t.length * (p.length + 1) + 1

/-- `searchKMP` from the Go source. -/
def searchKMP (t p : Str) : KMPResult :=
  if p = [] then
    { failureFunction := [], steps := [], found := false, positions := [],
      comparisons := 0, error := "Pattern cannot be empty" }
  else if t = [] then
    { failureFunction := [], steps := [], found := false, positions := [],
      comparisons := 0, error := "Text cannot be empty" }
  else
    let failure := buildFailureFunction p
    let fin := kmpLoop t p failure (kmpFuel t p) (initState t)
    { failureFunction := failure, steps := fin.steps,
      found := !fin.positions.isEmpty, positions := fin.positions,
      comparisons := fin.comparisons, error := "" }

/-- `true` iff the pattern occurs in `t` starting at position `q`
(the comparison done by a brute-force scan). -/
def occB (t p : Str) (q : Nat) : Bool := (t.drop q).take p.length == p

/-- The brute-force oracle: all match-start positions, in increasing order. -/
def bruteForce (t p : Str) : List Nat :=
  (List.range (t.length - p.length + 1)).filter (occB t p)


/-- The termination measure of the scan loop: decreases in every iteration. -/
def kmpMeasure (t p : Str) (s : ScanState) : Nat :=
  (t.length - s.i) * (p.length + 1) + s.j

/-- The main loop invariant of the scan: the cursors are in range, the window
`p[0..j)` matches the text just before `i`, and `positions` holds exactly the
occurrences starting before `i - j`. -/
def ScanInv (t p : Str) (s : ScanState) : Prop :=
  s.i ≤ t.length ∧ s.j ≤ s.i ∧ s.j < p.length ∧
  s.maxPref.length = t.length ∧
  p.take s.j = (t.drop (s.i - s.j)).take s.j ∧
  s.positions = (List.range (s.i - s.j)).filter (occB t p)

/-- The comparison-counter invariant: per-step counters are bounded by the
running counter and the last emitted step carries the current counter. -/
def CmpInv (s : ScanState) : Prop :=
  List.Chain' (· ≤ ·) (s.steps.map Step.comparisons) ∧
  (∀ c ∈ s.steps.map Step.comparisons, c ≤ s.comparisons) ∧
  (s.steps ≠ [] → (s.steps.map Step.comparisons).getLast? = some s.comparisons)

/-! ### Bounds-checked mirror of the two functions

Each Go slice/string access is replayed against the list's actual length;
`none` models an index-out-of-range panic.  The claim that no out-of-bounds
access is reachable is then: the mirrored search returns `some` of the
unchecked model's result. -/

/-- Checked string indexing `s[i]`. -/
def chAtChk (s : Str) (i : Nat) : Option Char := s[i]?

/-- Checked slice read `a[i]`. -/
def atChk (a : List Nat) (i : Nat) : Option Nat := a[i]?

/-- Checked slice write `a[i] = v`. -/
def setChk (a : List Nat) (i v : Nat) : Option (List Nat) :=
  if i < a.length then some (a.set i v) else none

/-- Checked mirror of `bffFallback`. -/
def bffFallbackChk (p : Str) (failure : List Nat) (c : Char) : Nat → Nat → Option Nat
  | 0, j => some j
  | fuel + 1, j =>
    if 0 < j then
      (chAtChk p j).bind fun cj =>
        if c ≠ cj then
          (atChk failure (j - 1)).bind fun j1 => bffFallbackChk p failure c fuel j1
        else some j
    else some j

/-- Checked mirror of `bffNext` (the accesses `pattern[i]`, `pattern[j]` of
the loop body, the fallback loop, and the re-test `pattern[i] == pattern[j]`
after it). -/
def bffNextChk (p : Str) (failure : List Nat) (j i : Nat) : Option Nat :=
  (chAtChk p i).bind fun ci =>
  (chAtChk p j).bind fun cj =>
  if ci = cj then some (j + 1)
  else
    (bffFallbackChk p failure ci j j).bind fun j1 =>
    (chAtChk p j1).bind fun cj1 =>
    if ci = cj1 then some (j1 + 1) else some j1

/-- Checked mirror of `bffLoop` (adds the write `failure[i] = j`). -/
def bffLoopChk (p : Str) : Nat → Nat → List Nat → Nat → Option (List Nat)
  | 0, _, failure, _ => some failure
  | d + 1, i, failure, j =>
    if i < p.length then
      (bffNextChk p failure j i).bind fun j1 =>
      (setChk failure i j1).bind fun failure1 =>
      bffLoopChk p d (i + 1) failure1 j1
    else some failure

/-- Checked mirror of `buildFailureFunction` (including the initial
`failure[0] = 0` write, which panics in Go on an empty pattern). -/
def buildFailureFunctionChk (p : Str) : Option (List Nat) :=
  (setChk (List.replicate p.length 0) 0 0).bind fun failure0 =>
  bffLoopChk p p.length 1 failure0 0

/-- Checked mirror of `relabelLoop` (the write `maxPrefix[k] = k-(i-m)+1`,
guarded in Go by `0 <= k < n`). -/
def relabelLoopChk (n lo : Nat) : Nat → List Nat → Nat → Nat → Option (List Nat)
  | 0, a, _, _ => some a
  | d + 1, a, k, hi =>
    if k < hi then
      if k < n then
        (setChk a k (k - lo + 1)).bind fun a1 => relabelLoopChk n lo d a1 (k + 1) hi
      else relabelLoopChk n lo d a (k + 1) hi
    else some a

/-- Checked mirror of `kmpIter`: replays every access of the loop body —
`text[i]`, `pattern[j]`, the snapshot read/update `maxPrefix[i]`, the
snapshot-copy write `step.PrefixFunction[i] = maxPrefix[i]`, the failure
reads `failure[j-1]`, and the relabelling loop. -/
def kmpIterChk (t p : Str) (failure : List Nat) (s : ScanState) : Option ScanState :=
  let n := t.length
  let m := p.length
  let cmps := s.comparisons + 1
  (chAtChk t s.i).bind fun tc =>
  (chAtChk p s.j).bind fun pc =>
  let mtc : Bool := tc == pc
  let step0 : Step :=
    { textIndex := s.i, patternIndex := s.j, isMatch := mtc, shift := false,
      status := "", failureValue := 0, comparisons := cmps,
      prefixFunction := s.maxPref, highlightPrefixIndex := (s.i : Int) }
  if mtc then
    (atChk s.maxPref s.i).bind fun cur =>
    (if s.j + 1 > cur then setChk s.maxPref s.i (s.j + 1) else some s.maxPref).bind
      fun maxPref1 =>
    (atChk maxPref1 s.i).bind fun v =>
    (setChk s.maxPref s.i v).bind fun stepPF =>
    let step1 := { step0 with prefixFunction := stepPF, status := statusMatchStr t p s.i s.j }
    let i1 := s.i + 1
    let j1 := s.j + 1
    if j1 = m then
      (atChk failure (j1 - 1)).bind fun fv =>
      (relabelLoopChk n (i1 - m) i1 maxPref1 (i1 - m) i1).bind fun maxPref2 =>
      let step2 : Step :=
        { textIndex := i1 - 1, patternIndex := j1 - 1, isMatch := true, shift := true,
          status := statusFullStr (i1 - j1) fv, failureValue := fv, comparisons := cmps,
          prefixFunction := maxPref2, highlightPrefixIndex := -1 }
      some
        { i := i1, j := fv, comparisons := cmps, maxPref := maxPref2,
          positions := s.positions ++ [i1 - j1], steps := s.steps ++ [step1, step2] }
    else
      some
        { i := i1, j := j1, comparisons := cmps, maxPref := maxPref1,
          positions := s.positions, steps := s.steps ++ [step1] }
  else if 0 < s.j then
    (atChk failure (s.j - 1)).bind fun fv =>
    let step1 := { step0 with status := statusMismatchStr t p s.i s.j fv, failureValue := fv }
    let step2 : Step :=
      { textIndex := s.i, patternIndex := fv, isMatch := false, shift := true,
        status := statusShiftedStr t fv s.i, failureValue := 0, comparisons := cmps,
        prefixFunction := s.maxPref, highlightPrefixIndex := (s.i : Int) }
    some { s with j := fv, comparisons := cmps, steps := s.steps ++ [step1, step2] }
  else
    let step1 := { step0 with status := statusZeroStr t p s.i }
    some { s with i := s.i + 1, comparisons := cmps, steps := s.steps ++ [step1] }

/-- Checked mirror of the scan loop. -/
def kmpLoopChk (t p : Str) (failure : List Nat) : Nat → ScanState → Option ScanState
  | 0, s => some s
  | fuel + 1, s =>
    if s.i < t.length then (kmpIterChk t p failure s).bind (kmpLoopChk t p failure fuel)
    else some s

/-- Checked mirror of `searchKMP`: `none` iff some access during failure-table
construction or scanning is out of bounds. -/
def searchKMPChk (t p : Str) : Option KMPResult :=
  if p = [] then
    some
      { failureFunction := [], steps := [], found := false, positions := [],
        comparisons := 0, error := "Pattern cannot be empty" }
  else if t = [] then
    some
      { failureFunction := [], steps := [], found := false, positions := [],
        comparisons := 0, error := "Text cannot be empty" }
  else
    (buildFailureFunctionChk p).bind fun failure =>
    (kmpLoopChk t p failure (kmpFuel t p) (initState t)).bind fun fin =>
    some
      { failureFunction := failure, steps := fin.steps,
        found := !fin.positions.isEmpty, positions := fin.positions,
        comparisons := fin.comparisons, error := "" }

/-! ### Borders: the specification side of the failure function

A *proper border* of a string `q` is a proper prefix of `q` that is also a
suffix of `q`.  `failure[i]` is specified as the length of the longest proper
border of the pattern prefix ending at position `i`. -/

/-- `b` is the length of a proper border of `q`. -/
def IsBorderLen (q : Str) (b : Nat) : Prop :=
  b < q.length ∧ q.take b = q.drop (q.length - b)

instance (q : Str) (b : Nat) : Decidable (IsBorderLen q b) := by
  unfold IsBorderLen; infer_instance

/-- The length of the longest proper border of `q` (`0` for `q` of length `≤ 1`). -/
def maxBorderLen (q : Str) : Nat :=
  Nat.findGreatest (fun b => IsBorderLen q b) q.length

/-- The specified value of `failure[i]`: the length of the longest proper
prefix of the pattern that is also a suffix of the pattern prefix ending at
position `i` (spec §4.1 / §8). -/
def failureSpec (p : Str) (i : Nat) : Nat := maxBorderLen (p.take (i + 1))

lemma chAt_eq_get {s : Str} {i : Nat} (h : i < s.length) : chAt s i = s.get ⟨i, h⟩ := by
  simp [chAt, List.getD_eq_getElem?_getD, List.getElem?_eq_getElem h, List.get_eq_getElem]

lemma isBorderLen_zero {q : Str} (hq : q ≠ []) : IsBorderLen q 0 :=
  ⟨List.length_pos.mpr hq, by simp⟩

lemma maxBorderLen_isBorder {q : Str} (hq : q ≠ []) : IsBorderLen q (maxBorderLen q) :=
  Nat.findGreatest_spec (Nat.zero_le _) (isBorderLen_zero hq)

lemma le_maxBorderLen {q : Str} {b : Nat} (hb : IsBorderLen q b) : b ≤ maxBorderLen q :=
  Nat.le_findGreatest hb.1.le hb

lemma maxBorderLen_lt {q : Str} (hq : q ≠ []) : maxBorderLen q < q.length :=
  (maxBorderLen_isBorder hq).1

lemma failureSpec_le {p : Str} {i : Nat} (hi : i < p.length) : failureSpec p i ≤ i := by
  have hne : p.take (i + 1) ≠ [] := by
    have : (p.take (i + 1)).length = i + 1 := by
      rw [List.length_take]; omega
    intro h; rw [h] at this; simp at this
  have h := maxBorderLen_lt hne
  rw [List.length_take] at h
  unfold failureSpec
  omega

/-- Borders of a prefix `p.take l` of `p`, written without the inner `take`. -/
lemma isBorderLen_take {p : Str} {l b : Nat} (hl : l ≤ p.length) :
    IsBorderLen (p.take l) b ↔ b < l ∧ p.take b = (p.take l).drop (l - b) := by
  unfold IsBorderLen
  rw [List.length_take, Nat.min_eq_left hl]
  constructor
  · rintro ⟨h1, h2⟩
    refine ⟨h1, ?_⟩
    rwa [List.take_take, Nat.min_eq_left h1.le] at h2
  · rintro ⟨h1, h2⟩
    refine ⟨h1, ?_⟩
    rwa [List.take_take, Nat.min_eq_left h1.le]

/-- Nesting of borders: below a given border `b2` of `q`, the borders of `q`
are exactly the borders of `q.take b2`. -/
lemma isBorderLen_lt_border {q : Str} {b1 b2 : Nat}
    (h2 : IsBorderLen q b2) (hlt : b1 < b2) :
    IsBorderLen q b1 ↔ IsBorderLen (q.take b2) b1 := by
  obtain ⟨hb2, he2⟩ := h2
  unfold IsBorderLen
  rw [List.length_take, Nat.min_eq_left hb2.le, List.take_take,
    Nat.min_eq_left hlt.le, he2, List.drop_drop]
  have harith : q.length - b2 + (b2 - b1) = q.length - b1 := by omega
  rw [harith]
  constructor
  · rintro ⟨_, h⟩; exact ⟨hlt, h⟩
  · rintro ⟨_, h⟩; exact ⟨hlt.trans hb2, h⟩

/-- Extending a border by one matching character: the positive borders of
`p.take (i+1)` are exactly the `b+1` where `b` is a border of `p.take i`
and `p[b] = p[i]`. -/
lemma isBorderLen_succ {p : Str} {i b : Nat} (hi : i < p.length) :
    IsBorderLen (p.take (i + 1)) (b + 1) ↔
      b < i ∧ p.take b = (p.take i).drop (i - b) ∧ chAt p b = chAt p i := by
  rw [isBorderLen_take (by omega)]
  constructor
  · rintro ⟨h1, h2⟩
    have hb : b < i := by omega
    have hbp : b < p.length := hb.trans hi
    have e1 : p.take (b + 1) = p.take b ++ [p.get ⟨b, hbp⟩] := by
      rw [List.take_succ]; simp [List.getElem?_eq_getElem hbp, List.get_eq_getElem]
    have e2 : p.take (i + 1) = p.take i ++ [p.get ⟨i, hi⟩] := by
      rw [List.take_succ]; simp [List.getElem?_eq_getElem hi, List.get_eq_getElem]
    rw [e1, e2] at h2
    have hdlen : i + 1 - (b + 1) = i - b := by omega
    rw [hdlen] at h2
    rw [List.drop_append_of_le_length (by rw [List.length_take]; omega)] at h2
    have hlen : (p.take b).length = ((p.take i).drop (i - b)).length := by
      rw [List.length_take, List.length_drop, List.length_take]; omega
    obtain ⟨hA, hB⟩ := List.append_inj h2 hlen
    refine ⟨hb, hA, ?_⟩
    rw [chAt_eq_get hbp, chAt_eq_get hi]
    exact List.head_eq_of_cons_eq hB
  · rintro ⟨hb, hA, hc⟩
    have hbp : b < p.length := hb.trans hi
    refine ⟨by omega, ?_⟩
    have e1 : p.take (b + 1) = p.take b ++ [p.get ⟨b, hbp⟩] := by
      rw [List.take_succ]; simp [List.getElem?_eq_getElem hbp, List.get_eq_getElem]
    have e2 : p.take (i + 1) = p.take i ++ [p.get ⟨i, hi⟩] := by
      rw [List.take_succ]; simp [List.getElem?_eq_getElem hi, List.get_eq_getElem]
    rw [e1, e2]
    have hdlen : i + 1 - (b + 1) = i - b := by omega
    rw [hdlen, List.drop_append_of_le_length (by rw [List.length_take]; omega), hA]
    congr 1
    rw [chAt_eq_get hbp, chAt_eq_get hi] at hc
    rw [hc]

/-! ### Correctness of `buildFailureFunction` -/

lemma atD_set (a : List Nat) (i k v : Nat) :
    atD (a.set i v) k = if i = k ∧ i < a.length then v else atD a k := by
  simp only [atD, List.getD_eq_getElem?_getD, List.getElem?_set]
  rcases eq_or_ne i k with h | h
  · subst h
    by_cases hl : i < a.length
    · simp [hl]
    · simp [hl, List.getElem?_eq_none (le_of_not_lt hl)]
  · simp [h]

lemma atD_replicate (n k : Nat) : atD (List.replicate n 0) k = 0 := by
  simp only [atD, List.getD_eq_getElem?_getD, List.getElem?_replicate]
  split <;> rfl

lemma take_ne_nil {p : Str} {l : Nat} (h0 : 0 < l) (hl : l ≤ p.length) : p.take l ≠ [] := by
  intro h
  have hlen : (p.take l).length = l := by rw [List.length_take]; omega
  rw [h] at hlen
  simp at hlen
  omega

lemma length_take_of_le {p : Str} {l : Nat} (hl : l ≤ p.length) : (p.take l).length = l := by
  rw [List.length_take]; omega

/-- Postcondition of the fallback `while` loop in `buildFailureFunction`:
starting from a border `j` of `p.take i` above every "good" candidate
(a border `b` of `p.take i` with `p[b] = p[i]`), it returns a border that is
still above every good candidate and at which either the character matches
or `0` has been reached.  Fuel `j` suffices because each iteration strictly
decreases `j`. -/
lemma bffFallback_post {p : Str} {failure : List Nat} {i : Nat}
    (hi : i < p.length)
    (hcorr : ∀ k, k < i → atD failure k = failureSpec p k) :
    ∀ fuel j, j ≤ fuel → IsBorderLen (p.take i) j →
      (∀ b, b < i → p.take b = (p.take i).drop (i - b) → chAt p b = chAt p i → b ≤ j) →
      IsBorderLen (p.take i) (bffFallback p failure (chAt p i) fuel j) ∧
      (∀ b, b < i → p.take b = (p.take i).drop (i - b) → chAt p b = chAt p i →
        b ≤ bffFallback p failure (chAt p i) fuel j) ∧
      (bffFallback p failure (chAt p i) fuel j = 0 ∨
        chAt p i = chAt p (bffFallback p failure (chAt p i) fuel j)) := by
  intro fuel
  induction fuel with
  | zero =>
    intro j hj hb hmax
    have hj0 : j = 0 := by omega
    subst hj0
    exact ⟨hb, hmax, Or.inl rfl⟩
  | succ fuel ih =>
    intro j hj hb hmax
    rw [bffFallback]
    by_cases hcond : 0 < j ∧ chAt p i ≠ chAt p j
    · rw [if_pos hcond]
      have hji : j < i := by
        have h := hb.1
        rwa [length_take_of_le hi.le] at h
      have hjcorr : atD failure (j - 1) = failureSpec p (j - 1) := hcorr _ (by omega)
      have hspec : failureSpec p (j - 1) = maxBorderLen (p.take j) := by
        unfold failureSpec; congr 2; omega
      have htbne : p.take j ≠ [] := take_ne_nil hcond.1 (by omega)
      have hjm : maxBorderLen (p.take j) < j := by
        have h := maxBorderLen_lt htbne
        rwa [length_take_of_le (by omega)] at h
      have hj'val : atD failure (j - 1) = maxBorderLen (p.take j) := by
        rw [hjcorr, hspec]
      have hbj' : IsBorderLen (p.take i) (atD failure (j - 1)) := by
        have h1 : IsBorderLen (p.take j) (atD failure (j - 1)) := by
          rw [hj'val]; exact maxBorderLen_isBorder htbne
        have h2 : IsBorderLen ((p.take i).take j) (atD failure (j - 1)) := by
          rwa [List.take_take, Nat.min_eq_left hji.le]
        exact (isBorderLen_lt_border hb (by omega)).mpr h2
      have hmax' : ∀ b, b < i → p.take b = (p.take i).drop (i - b) →
          chAt p b = chAt p i → b ≤ atD failure (j - 1) := by
        intro b hb1 hb2 hb3
        have hbj : b ≤ j := hmax b hb1 hb2 hb3
        have hbne : b ≠ j := by
          intro h; subst h; exact hcond.2 hb3.symm
        have hbb : IsBorderLen (p.take i) b := (isBorderLen_take hi.le).mpr ⟨hb1, hb2⟩
        have hbb2 : IsBorderLen ((p.take i).take j) b :=
          (isBorderLen_lt_border hb (by omega)).mp hbb
        rw [List.take_take, Nat.min_eq_left hji.le] at hbb2
        have := le_maxBorderLen hbb2
        omega
      exact ih (atD failure (j - 1)) (by omega) hbj' hmax'
    · rw [if_neg hcond]
      push_neg at hcond
      refine ⟨hb, hmax, ?_⟩
      by_cases h0 : j = 0
      · exact Or.inl h0
      · exact Or.inr (hcond (by omega))

/-- If `r` is the largest border of `p.take i` whose next character matches
`p[i]`, then `failure[i]` is specified to be `r + 1`. -/
lemma failureSpec_succ_max {p : Str} {i r : Nat} (hi : i < p.length)
    (hr : r < i) (hrB : p.take r = (p.take i).drop (i - r)) (hrc : chAt p r = chAt p i)
    (hmax : ∀ b, b < i → p.take b = (p.take i).drop (i - b) → chAt p b = chAt p i → b ≤ r) :
    failureSpec p i = r + 1 := by
  unfold failureSpec
  have hne : p.take (i + 1) ≠ [] := take_ne_nil (by omega) (by omega)
  have hB : IsBorderLen (p.take (i + 1)) (r + 1) := (isBorderLen_succ hi).mpr ⟨hr, hrB, hrc⟩
  have h1 : r + 1 ≤ maxBorderLen (p.take (i + 1)) := le_maxBorderLen hB
  have h2 : maxBorderLen (p.take (i + 1)) ≤ r + 1 := by
    have hMB := maxBorderLen_isBorder hne
    obtain ⟨b, hb⟩ : ∃ b, maxBorderLen (p.take (i + 1)) = b + 1 :=
      ⟨maxBorderLen (p.take (i + 1)) - 1, by omega⟩
    rw [hb] at hMB
    obtain ⟨x1, x2, x3⟩ := (isBorderLen_succ hi).mp hMB
    have := hmax b x1 x2 x3
    omega
  omega

/-- If no border of `p.take i` extends by a character matching `p[i]`, then
`failure[i]` is specified to be `0`. -/
lemma failureSpec_succ_zero {p : Str} {i : Nat} (hi : i < p.length)
    (hnone : ∀ b, b < i → p.take b = (p.take i).drop (i - b) → chAt p b = chAt p i → False) :
    failureSpec p i = 0 := by
  unfold failureSpec
  by_contra h
  have hne : p.take (i + 1) ≠ [] := take_ne_nil (by omega) (by omega)
  have hMB := maxBorderLen_isBorder hne
  obtain ⟨b, hb⟩ : ∃ b, maxBorderLen (p.take (i + 1)) = b + 1 :=
      ⟨maxBorderLen (p.take (i + 1)) - 1, by omega⟩
  rw [hb] at hMB
  obtain ⟨x1, x2, x3⟩ := (isBorderLen_succ hi).mp hMB
  exact hnone b x1 x2 x3

/-- The body of `buildFailureFunction`'s outer loop computes the specified
next failure value. -/
lemma bffNext_correct {p : Str} {failure : List Nat} {i : Nat}
    (hi1 : 1 ≤ i) (hi : i < p.length)
    (hcorr : ∀ k, k < i → atD failure k = failureSpec p k) :
    bffNext p failure (failureSpec p (i - 1)) i = failureSpec p i := by
  have hspec0 : failureSpec p (i - 1) = maxBorderLen (p.take i) := by
    unfold failureSpec; congr 2; omega
  have htne : p.take i ≠ [] := take_ne_nil (by omega) hi.le
  have hj0b : IsBorderLen (p.take i) (failureSpec p (i - 1)) := by
    rw [hspec0]; exact maxBorderLen_isBorder htne
  have hj0lt : failureSpec p (i - 1) < i := by
    have h := maxBorderLen_lt htne
    rw [length_take_of_le hi.le] at h
    omega
  have hmax0 : ∀ b, b < i → p.take b = (p.take i).drop (i - b) →
      chAt p b = chAt p i → b ≤ failureSpec p (i - 1) := by
    intro b hb1 hb2 _
    have hbb : IsBorderLen (p.take i) b := (isBorderLen_take hi.le).mpr ⟨hb1, hb2⟩
    have := le_maxBorderLen hbb
    omega
  unfold bffNext
  by_cases hm : chAt p i = chAt p (failureSpec p (i - 1))
  · rw [if_pos hm]
    obtain ⟨_, hj0eq⟩ := (isBorderLen_take hi.le).mp hj0b
    exact (failureSpec_succ_max hi hj0lt hj0eq hm.symm hmax0).symm
  · rw [if_neg hm]
    obtain ⟨rB, rmax, rzero⟩ :=
      bffFallback_post hi hcorr (failureSpec p (i - 1)) (failureSpec p (i - 1))
        le_rfl hj0b hmax0
    by_cases hm2 : chAt p i =
        chAt p (bffFallback p failure (chAt p i) (failureSpec p (i - 1)) (failureSpec p (i - 1)))
    · rw [if_pos hm2]
      have hrlt := rB.1
      rw [length_take_of_le hi.le] at hrlt
      obtain ⟨_, hreq⟩ := (isBorderLen_take hi.le).mp rB
      exact (failureSpec_succ_max hi hrlt hreq hm2.symm rmax).symm
    · rw [if_neg hm2]
      have hr0 : bffFallback p failure (chAt p i) (failureSpec p (i - 1))
          (failureSpec p (i - 1)) = 0 := by
        rcases rzero with h | h
        · exact h
        · exact absurd h hm2
      rw [hr0]
      refine (failureSpec_succ_zero hi ?_).symm
      intro b hb1 hb2 hb3
      have := rmax b hb1 hb2 hb3
      rw [hr0] at this
      have hb0 : b = 0 := by omega
      subst hb0
      rw [hr0] at hm2
      exact hm2 hb3.symm

/-- The outer loop of `buildFailureFunction` fills the whole table with the
specified values. -/
lemma bffLoop_correct {p : Str} :
    ∀ d i failure j, p.length - i ≤ d → 1 ≤ i → failure.length = p.length →
      (∀ k, k < i → k < p.length → atD failure k = failureSpec p k) →
      j = failureSpec p (i - 1) →
      (bffLoop p d i failure j).length = p.length ∧
      ∀ k, k < p.length → atD (bffLoop p d i failure j) k = failureSpec p k := by
  intro d
  induction d with
  | zero =>
    intro i failure j hd h1 hlen hcorr _
    exact ⟨hlen, fun k hk => hcorr k (by omega) hk⟩
  | succ d ih =>
    intro i failure j hd h1 hlen hcorr hj
    by_cases hi : i < p.length
    · have hnext : bffNext p failure j i = failureSpec p i := by
        subst hj
        exact bffNext_correct h1 hi (fun k hk => hcorr k hk (hk.trans hi))
      have hcorr' : ∀ k, k < i + 1 → k < p.length →
          atD (failure.set i (bffNext p failure j i)) k = failureSpec p k := by
        intro k hk hkp
        rw [atD_set]
        rcases eq_or_ne i k with hik | hik
        · subst hik
          rw [if_pos ⟨rfl, by omega⟩]
          exact hnext
        · rw [if_neg (by tauto)]
          exact hcorr k (by omega) hkp
      have hj' : bffNext p failure j i = failureSpec p (i + 1 - 1) := by
        simpa using hnext
      rw [bffLoop, if_pos hi]
      exact ih (i + 1) (failure.set i (bffNext p failure j i)) (bffNext p failure j i)
        (by omega) (by omega) (by rw [List.length_set]; exact hlen) hcorr' hj'
    · rw [bffLoop, if_neg hi]
      exact ⟨hlen, fun k hk => hcorr k (by omega) hk⟩

/-- `failure[0]` is specified to be `0`. -/
lemma failureSpec_zero {p : Str} (hp : p ≠ []) : failureSpec p 0 = 0 := by
  have hlp : 0 < p.length := List.length_pos.mpr hp
  have hne : p.take 1 ≠ [] := take_ne_nil one_pos hlp
  have h := maxBorderLen_lt hne
  rw [List.length_take] at h
  unfold failureSpec
  simp only [Nat.zero_add]
  omega

/-- The failure-table entries are bounded by their index (including the
out-of-range default), for every pattern. -/
lemma buildFailureFunction_le (p : Str) : ∀ k, atD (buildFailureFunction p) k ≤ k := by
  intro k
  by_cases hp : p = []
  · subst hp
    simp [buildFailureFunction, bffLoop, atD]
  · obtain ⟨hlen, hcorr⟩ := bffLoop_correct (p := p) p.length 1
      ((List.replicate p.length 0).set 0 0) 0 (by omega) le_rfl
      (by rw [List.length_set, List.length_replicate])
      (by
        intro k hk hkp
        have hk0 : k = 0 := by omega
        subst hk0
        rw [atD_set, if_pos ⟨rfl, by rw [List.length_replicate]; exact List.length_pos.mpr hp⟩]
        exact (failureSpec_zero hp).symm)
      (by simpa using (failureSpec_zero hp).symm)
    by_cases hk : k < p.length
    · rw [show buildFailureFunction p = bffLoop p p.length 1 ((List.replicate p.length 0).set 0 0) 0
        from rfl, hcorr k hk]
      exact failureSpec_le hk
    · have : (buildFailureFunction p).length ≤ k := by
        rw [show buildFailureFunction p = bffLoop p p.length 1 ((List.replicate p.length 0).set 0 0) 0
          from rfl, hlen]
        omega
      rw [atD, List.getD_eq_getElem?_getD, List.getElem?_eq_none this]
      simp

lemma buildFailureFunction_spec_all {p : Str} (hp : p ≠ []) :
    (buildFailureFunction p).length = p.length ∧
    ∀ k, k < p.length → atD (buildFailureFunction p) k = failureSpec p k := by
  obtain ⟨hlen, hcorr⟩ := bffLoop_correct (p := p) p.length 1
    ((List.replicate p.length 0).set 0 0) 0 (by omega) le_rfl
    (by rw [List.length_set, List.length_replicate])
    (by
      intro k hk hkp
      have hk0 : k = 0 := by omega
      subst hk0
      rw [atD_set, if_pos ⟨rfl, by rw [List.length_replicate]; exact List.length_pos.mpr hp⟩]
      exact (failureSpec_zero hp).symm)
    (by simpa using (failureSpec_zero hp).symm)
  exact ⟨hlen, hcorr⟩

/-! ### Unfolding the scan-loop iteration, branch by branch -/

lemma kmpIter_match {t p : Str} {failure : List Nat} {s : ScanState}
    (hm : chAt t s.i = chAt p s.j) (hnf : s.j + 1 ≠ p.length) :
    kmpIter t p failure s =
      { i := s.i + 1, j := s.j + 1, comparisons := s.comparisons + 1,
        maxPref := if s.j + 1 > atD s.maxPref s.i then s.maxPref.set s.i (s.j + 1)
          else s.maxPref,
        positions := s.positions,
        steps := s.steps ++
          [{ textIndex := s.i, patternIndex := s.j, isMatch := true, shift := false,
             status := statusMatchStr t p s.i s.j, failureValue := 0,
             comparisons := s.comparisons + 1,
             prefixFunction := if s.j + 1 > atD s.maxPref s.i then
               s.maxPref.set s.i (s.j + 1) else s.maxPref,
             highlightPrefixIndex := (s.i : Int) }] } := by
  have hb : (chAt t s.i == chAt p s.j) = true := beq_iff_eq.mpr hm
  simp only [kmpIter]
  rw [if_pos hb, if_neg hnf, hb]

lemma kmpIter_fullMatch {t p : Str} {failure : List Nat} {s : ScanState}
    (hm : chAt t s.i = chAt p s.j) (hf : s.j + 1 = p.length) :
    kmpIter t p failure s =
      { i := s.i + 1, j := atD failure (s.j + 1 - 1), comparisons := s.comparisons + 1,
        maxPref := relabelLoop t.length (s.i + 1 - p.length) (s.i + 1)
          (if s.j + 1 > atD s.maxPref s.i then s.maxPref.set s.i (s.j + 1) else s.maxPref)
          (s.i + 1 - p.length) (s.i + 1),
        positions := s.positions ++ [s.i + 1 - (s.j + 1)],
        steps := s.steps ++
          [{ textIndex := s.i, patternIndex := s.j, isMatch := true, shift := false,
             status := statusMatchStr t p s.i s.j, failureValue := 0,
             comparisons := s.comparisons + 1,
             prefixFunction := if s.j + 1 > atD s.maxPref s.i then
               s.maxPref.set s.i (s.j + 1) else s.maxPref,
             highlightPrefixIndex := (s.i : Int) },
           { textIndex := s.i + 1 - 1, patternIndex := s.j + 1 - 1, isMatch := true,
             shift := true,
             status := statusFullStr (s.i + 1 - (s.j + 1)) (atD failure (s.j + 1 - 1)),
             failureValue := atD failure (s.j + 1 - 1), comparisons := s.comparisons + 1,
             prefixFunction := relabelLoop t.length (s.i + 1 - p.length) (s.i + 1)
               (if s.j + 1 > atD s.maxPref s.i then s.maxPref.set s.i (s.j + 1)
                 else s.maxPref)
               (s.i + 1 - p.length) (s.i + 1),
             highlightPrefixIndex := -1 }] } := by
  have hb : (chAt t s.i == chAt p s.j) = true := beq_iff_eq.mpr hm
  simp only [kmpIter]
  rw [if_pos hb, if_pos hf, hb]

lemma kmpIter_mismatchShift {t p : Str} {failure : List Nat} {s : ScanState}
    (hm : chAt t s.i ≠ chAt p s.j) (hj : 0 < s.j) :
    kmpIter t p failure s =
      { i := s.i, j := atD failure (s.j - 1), comparisons := s.comparisons + 1,
        maxPref := s.maxPref, positions := s.positions,
        steps := s.steps ++
          [{ textIndex := s.i, patternIndex := s.j, isMatch := false, shift := false,
             status := statusMismatchStr t p s.i s.j (atD failure (s.j - 1)),
             failureValue := atD failure (s.j - 1), comparisons := s.comparisons + 1,
             prefixFunction := s.maxPref, highlightPrefixIndex := (s.i : Int) },
           { textIndex := s.i, patternIndex := atD failure (s.j - 1), isMatch := false,
             shift := true, status := statusShiftedStr t (atD failure (s.j - 1)) s.i,
             failureValue := 0, comparisons := s.comparisons + 1,
             prefixFunction := s.maxPref, highlightPrefixIndex := (s.i : Int) }] } := by
  have hb : (chAt t s.i == chAt p s.j) = false := beq_eq_false_iff_ne.mpr hm
  simp only [kmpIter]
  rw [hb, if_neg (by simp), if_pos hj]

lemma kmpIter_mismatchZero {t p : Str} {failure : List Nat} {s : ScanState}
    (hm : chAt t s.i ≠ chAt p s.j) (hj : s.j = 0) :
    kmpIter t p failure s =
      { i := s.i + 1, j := s.j, comparisons := s.comparisons + 1,
        maxPref := s.maxPref, positions := s.positions,
        steps := s.steps ++
          [{ textIndex := s.i, patternIndex := s.j, isMatch := false, shift := false,
             status := statusZeroStr t p s.i, failureValue := 0,
             comparisons := s.comparisons + 1, prefixFunction := s.maxPref,
             highlightPrefixIndex := (s.i : Int) }] } := by
  have hb : (chAt t s.i == chAt p s.j) = false := beq_eq_false_iff_ne.mpr hm
  simp only [kmpIter]
  rw [hb, if_neg (by simp), if_neg (by omega)]

lemma relabelLoop_length (n lo : Nat) :
    ∀ d a k hi, (relabelLoop n lo d a k hi).length = a.length := by
  intro d
  induction d with
  | zero => intro a k hi; rfl
  | succ d ih =>
    intro a k hi
    rw [relabelLoop]
    by_cases hk : k < hi
    · rw [if_pos hk, ih]
      by_cases hkn : k < n
      · rw [if_pos hkn, List.length_set]
      · rw [if_neg hkn]
    · rw [if_neg hk]

lemma relabelLoop_atD (n lo : Nat) :
    ∀ d a k hi x, hi - k ≤ d → a.length = n →
      atD (relabelLoop n lo d a k hi) x =
        if k ≤ x ∧ x < hi ∧ x < n then x - lo + 1 else atD a x := by
  intro d
  induction d with
  | zero =>
    intro a k hi x hd _
    rw [relabelLoop.eq_1, if_neg (by omega)]
  | succ d ih =>
    intro a k hi x hd hlen
    rw [relabelLoop]
    by_cases hk : k < hi
    · rw [if_pos hk]
      by_cases hkn : k < n
      · rw [if_pos hkn,
          ih (a.set k (k - lo + 1)) (k + 1) hi x (by omega) (by rw [List.length_set]; exact hlen)]
        by_cases hc1 : k + 1 ≤ x ∧ x < hi ∧ x < n
        · rw [if_pos hc1, if_pos ⟨by omega, hc1.2⟩]
        · rw [if_neg hc1, atD_set]
          rcases eq_or_ne k x with hkx | hkx
          · subst hkx
            rw [if_pos ⟨rfl, by omega⟩, if_pos ⟨le_refl k, hk, hkn⟩]
          · rw [if_neg (by tauto), if_neg (by omega)]
      · rw [if_neg hkn, ih a (k + 1) hi x (by omega) hlen]
        by_cases hc1 : k + 1 ≤ x ∧ x < hi ∧ x < n
        · rw [if_pos hc1, if_pos ⟨by omega, hc1.2⟩]
        · rw [if_neg hc1, if_neg (by omega)]
    · rw [if_neg hk, if_neg (by omega)]

lemma kmpIter_measure {t p : Str} {failure : List Nat} {s : ScanState}
    (hp : p ≠ []) (hfb : ∀ k, atD failure k ≤ k) (hi : s.i < t.length) :
    kmpMeasure t p (kmpIter t p failure s) < kmpMeasure t p s := by
  have hm1 : 1 ≤ p.length := List.length_pos.mpr hp
  have h1 : t.length - s.i = (t.length - (s.i + 1)) + 1 := by omega
  by_cases hm : chAt t s.i = chAt p s.j
  · by_cases hf : s.j + 1 = p.length
    · rw [kmpIter_fullMatch hm hf]
      unfold kmpMeasure
      dsimp only
      rw [h1, add_one_mul]
      have := hfb (s.j + 1 - 1)
      omega
    · rw [kmpIter_match hm hf]
      unfold kmpMeasure
      dsimp only
      rw [h1, add_one_mul]
      omega
  · by_cases hj : 0 < s.j
    · rw [kmpIter_mismatchShift hm hj]
      unfold kmpMeasure
      dsimp only
      have := hfb (s.j - 1)
      omega
    · rw [kmpIter_mismatchZero hm (by omega)]
      unfold kmpMeasure
      dsimp only
      rw [h1, add_one_mul]
      omega

lemma kmpLoop_fuel_stable {t p : Str} {failure : List Nat}
    (hp : p ≠ []) (hfb : ∀ k, atD failure k ≤ k) :
    ∀ fuel1 fuel2 s, kmpMeasure t p s < fuel1 → kmpMeasure t p s < fuel2 →
      kmpLoop t p failure fuel1 s = kmpLoop t p failure fuel2 s := by
  intro fuel1
  induction fuel1 with
  | zero => intro fuel2 s h1 _; omega
  | succ fuel1 ih =>
    intro fuel2 s h1 h2
    cases fuel2 with
    | zero => omega
    | succ fuel2 =>
      simp only [kmpLoop]
      by_cases hi : s.i < t.length
      · rw [if_pos hi, if_pos hi]
        have hdec := kmpIter_measure hp hfb hi
        exact ih fuel2 (kmpIter t p failure s) (by omega) (by omega)
      · rw [if_neg hi, if_neg hi]

lemma bffFallback_fuel_stable {p : Str} {failure : List Nat} {c : Char}
    (hfb : ∀ k, atD failure k ≤ k) :
    ∀ fuel1 fuel2 j, j ≤ fuel1 → j ≤ fuel2 →
      bffFallback p failure c fuel1 j = bffFallback p failure c fuel2 j := by
  intro fuel1
  induction fuel1 with
  | zero =>
    intro fuel2 j h1 _
    have hj : j = 0 := by omega
    subst hj
    cases fuel2 with
    | zero => rfl
    | succ fuel2 =>
      simp only [bffFallback]
      rw [if_neg (by simp)]
  | succ fuel1 ih =>
    intro fuel2 j h1 h2
    by_cases hcond : 0 < j ∧ c ≠ chAt p j
    · cases fuel2 with
      | zero => omega
      | succ fuel2 =>
        simp only [bffFallback]
        rw [if_pos hcond, if_pos hcond]
        have := hfb (j - 1)
        exact ih fuel2 (atD failure (j - 1)) (by omega) (by omega)
    · cases fuel2 with
      | zero =>
        have hj : j = 0 := by omega
        subst hj
        simp only [bffFallback]
        rw [if_neg hcond]
      | succ fuel2 =>
        simp only [bffFallback]
        rw [if_neg hcond, if_neg hcond]

lemma chain'_le_of_const {l : List Nat} {c : Nat} (h : ∀ x ∈ l, x = c) :
    List.Chain' (· ≤ ·) l := by
  induction l with
  | nil => simp
  | cons a l ih =>
    rw [List.chain'_cons']
    refine ⟨?_, ih (fun x hx => h x (List.mem_cons_of_mem _ hx))⟩
    intro y hy
    have h1 := h a (List.mem_cons_self a l)
    have h2 := h y (List.mem_cons_of_mem _ (List.mem_of_mem_head? hy))
    omega

lemma cmpInv_of_append {old new : ScanState} (hc : CmpInv old) {L : List Step}
    (hsteps : new.steps = old.steps ++ L)
    (hcmp : new.comparisons = old.comparisons + 1)
    (hL : L ≠ [])
    (hall : ∀ st ∈ L, st.comparisons = old.comparisons + 1) :
    CmpInv new := by
  obtain ⟨h1, h2, h3⟩ := hc
  have hallm : ∀ x ∈ L.map Step.comparisons, x = old.comparisons + 1 := by
    intro x hx
    obtain ⟨st, hst, rfl⟩ := List.mem_map.mp hx
    exact hall st hst
  have hLm : L.map Step.comparisons ≠ [] := by
    intro h
    exact hL (List.map_eq_nil_iff.mp h)
  refine ⟨?_, ?_, ?_⟩
  · rw [hsteps, List.map_append, List.chain'_append]
    refine ⟨h1, chain'_le_of_const hallm, ?_⟩
    intro x hx y hy
    have hx' := h2 x (List.mem_of_mem_getLast? hx)
    have hy' := hallm y (List.mem_of_mem_head? hy)
    omega
  · intro c hc'
    rw [hsteps, List.map_append] at hc'
    rw [hcmp]
    rcases List.mem_append.mp hc' with h | h
    · have := h2 c h
      omega
    · rw [hallm c h]
  · intro _
    rw [hsteps, List.map_append, List.getLast?_append, hcmp]
    obtain ⟨x, hx⟩ := Option.isSome_iff_exists.mp (List.getLast?_isSome.mpr hLm)
    rw [hx]
    have := hallm x (List.mem_of_mem_getLast? hx)
    rw [this]
    rfl

lemma cmpInv_preserved {t p : Str} {failure : List Nat} {s : ScanState}
    (hc : CmpInv s) : CmpInv (kmpIter t p failure s) := by
  by_cases hm : chAt t s.i = chAt p s.j
  · by_cases hf : s.j + 1 = p.length
    · rw [kmpIter_fullMatch hm hf]
      exact cmpInv_of_append hc rfl rfl (by simp) (by simp)
    · rw [kmpIter_match hm hf]
      exact cmpInv_of_append hc rfl rfl (by simp) (by simp)
  · by_cases hj : 0 < s.j
    · rw [kmpIter_mismatchShift hm hj]
      exact cmpInv_of_append hc rfl rfl (by simp) (by simp)
    · rw [kmpIter_mismatchZero hm (by omega)]
      exact cmpInv_of_append hc rfl rfl (by simp) (by simp)

lemma kmpIter_steps_ne_nil {t p : Str} {failure : List Nat} {s : ScanState} :
    (kmpIter t p failure s).steps ≠ [] := by
  by_cases hm : chAt t s.i = chAt p s.j
  · by_cases hf : s.j + 1 = p.length
    · rw [kmpIter_fullMatch hm hf]; simp
    · rw [kmpIter_match hm hf]; simp
  · by_cases hj : 0 < s.j
    · rw [kmpIter_mismatchShift hm hj]; simp
    · rw [kmpIter_mismatchZero hm (by omega)]; simp

/-- Any property preserved by the loop body holds for the loop result. -/
lemma kmpLoop_inv {t p : Str} {failure : List Nat} (P : ScanState → Prop)
    (hP : ∀ s, P s → s.i < t.length → P (kmpIter t p failure s)) :
    ∀ fuel s, P s → P (kmpLoop t p failure fuel s) := by
  intro fuel
  induction fuel with
  | zero => intro s hs; exact hs
  | succ fuel ih =>
    intro s hs
    rw [kmpLoop]
    by_cases hi : s.i < t.length
    · rw [if_pos hi]
      exact ih _ (hP s hs hi)
    · rw [if_neg hi]
      exact hs

/-- With sufficient fuel the loop runs until the guard fails. -/
lemma kmpLoop_exit {t p : Str} {failure : List Nat}
    (hp : p ≠ []) (hfb : ∀ k, atD failure k ≤ k) :
    ∀ fuel s, kmpMeasure t p s < fuel →
      ¬ (kmpLoop t p failure fuel s).i < t.length := by
  intro fuel
  induction fuel with
  | zero => intro s h; omega
  | succ fuel ih =>
    intro s h
    rw [kmpLoop]
    by_cases hi : s.i < t.length
    · rw [if_pos hi]
      have := kmpIter_measure hp hfb hi
      exact ih _ (by omega)
    · rw [if_neg hi]
      exact hi

lemma initState_measure_lt (t p : Str) : kmpMeasure t p (initState t) < kmpFuel t p := by
  unfold kmpMeasure kmpFuel initState
  dsimp only
  simp only [Nat.sub_zero]
  omega

/-- `searchKMP` on non-trivial inputs, written through its scan loop. -/
lemma searchKMP_eq (t p : Str) (ht : t ≠ []) (hp : p ≠ []) :
    searchKMP t p =
      { failureFunction := buildFailureFunction p,
        steps := (kmpLoop t p (buildFailureFunction p) (kmpFuel t p) (initState t)).steps,
        found := !(kmpLoop t p (buildFailureFunction p) (kmpFuel t p)
          (initState t)).positions.isEmpty,
        positions := (kmpLoop t p (buildFailureFunction p) (kmpFuel t p)
          (initState t)).positions,
        comparisons := (kmpLoop t p (buildFailureFunction p) (kmpFuel t p)
          (initState t)).comparisons,
        error := "" } := by
  unfold searchKMP
  rw [if_neg hp, if_neg ht]

lemma cmpInv_initState (t : Str) : CmpInv (initState t) := by
  refine ⟨by simp [initState], by simp [initState], by simp [initState]⟩

/-! ### The scan invariant and functional correctness of the search -/

lemma filter_range_ext {f : Nat → Bool} :
    ∀ b a, a ≤ b → (∀ q, a ≤ q → q < b → f q = false) →
      (List.range b).filter f = (List.range a).filter f := by
  intro b
  induction b with
  | zero =>
    intro a hab _
    have h0 : a = 0 := by omega
    subst h0
    rfl
  | succ b ih =>
    intro a hab h
    rcases Nat.lt_or_ge a (b + 1) with hlt | hge
    · rw [List.range_succ, List.filter_append,
        ih a (by omega) (fun q hq1 hq2 => h q hq1 (by omega))]
      have hb : f b = false := h b (by omega) (by omega)
      simp [hb]
    · have h0 : a = b + 1 := by omega
      subst h0
      rfl

lemma filter_range_snoc {f : Nat → Bool} {a b : Nat} (hab : a < b) (ha : f a = true)
    (h : ∀ q, a < q → q < b → f q = false) :
    (List.range b).filter f = (List.range a).filter f ++ [a] := by
  rw [filter_range_ext b (a + 1) (by omega) (fun q hq1 hq2 => h q (by omega) hq2),
    List.range_succ, List.filter_append]
  simp [ha]

lemma occB_eq_true_iff {t p : Str} {q : Nat} :
    occB t p q = true ↔ (t.drop q).take p.length = p := by
  unfold occB
  exact beq_iff_eq

lemma occB_false_of_len {t p : Str} {q : Nat} (hp : p ≠ []) (h : t.length < q + p.length) :
    occB t p q = false := by
  rw [Bool.eq_false_iff]
  intro hocc
  have hlen := congrArg List.length (occB_eq_true_iff.mp hocc)
  rw [List.length_take, List.length_drop] at hlen
  have hm : 0 < p.length := List.length_pos.mpr hp
  omega

lemma seg_drop {t : Str} (q : Nat) {j b : Nat} (hb : b ≤ j) :
    ((t.drop q).take j).drop (j - b) = (t.drop (q + (j - b))).take b := by
  rw [List.drop_take, List.drop_drop]
  congr 1
  omega

lemma occ_take {t p : Str} {q b : Nat} (hocc : (t.drop q).take p.length = p)
    (hb : b ≤ p.length) :
    p.take b = (t.drop q).take b := by
  conv_lhs => rw [← hocc]
  rw [List.take_take]
  congr 1
  omega

lemma ch_eq_of_getElem? {t p : Str} {i j : Nat} (h : t[i]? = p[j]?) : chAt t i = chAt p j := by
  unfold chAt
  rw [List.getD_eq_getElem?_getD, List.getD_eq_getElem?_getD, h]

lemma window_extend {t p : Str} {i j : Nat}
    (hw : p.take j = (t.drop (i - j)).take j)
    (hj : j ≤ i) (hjm : j < p.length) (hi : i < t.length)
    (hc : chAt t i = chAt p j) :
    p.take (j + 1) = (t.drop (i - j)).take (j + 1) := by
  have e1 : p.take (j + 1) = p.take j ++ [p.get ⟨j, hjm⟩] := by
    rw [List.take_succ]
    simp [List.getElem?_eq_getElem hjm, List.get_eq_getElem]
  have hlt : j < (t.drop (i - j)).length := by
    rw [List.length_drop]
    omega
  have e2 : (t.drop (i - j)).take (j + 1) =
      (t.drop (i - j)).take j ++ [(t.drop (i - j)).get ⟨j, hlt⟩] := by
    rw [List.take_succ]
    simp [List.getElem?_eq_getElem hlt, List.get_eq_getElem]
  rw [e1, e2, hw]
  congr 1
  have hg : (t.drop (i - j)).get ⟨j, hlt⟩ = t.get ⟨i, hi⟩ := by
    simp only [List.get_eq_getElem, List.getElem_drop]
    congr 1
    omega
  have hg2 : t.get ⟨i, hi⟩ = p.get ⟨j, hjm⟩ := by
    rw [← chAt_eq_get hi, ← chAt_eq_get hjm]
    exact hc
  rw [hg, hg2]

lemma occB_false_at_window {t p : Str} {i j : Nat}
    (hj : j ≤ i) (hjm : j < p.length)
    (hc : chAt t i ≠ chAt p j) :
    occB t p (i - j) = false := by
  rw [Bool.eq_false_iff]
  intro hocc
  have heq := occB_eq_true_iff.mp hocc
  apply hc
  apply ch_eq_of_getElem?
  have h1 := congrArg (fun l => l[j]?) heq
  dsimp only at h1
  rw [List.getElem?_take, if_pos hjm, List.getElem?_drop] at h1
  rwa [show i - j + j = i by omega] at h1

lemma border_of_occ_inside {t p : Str} {i j q : Nat}
    (hw : p.take j = (t.drop (i - j)).take j)
    (hj : j ≤ i) (hjm : j ≤ p.length)
    (hq1 : i - j < q) (hq2 : q < i)
    (hocc : occB t p q = true) :
    p.take (i - q) = (p.take j).drop (j - (i - q)) := by
  have heq := occB_eq_true_iff.mp hocc
  have hb2 : i - q < j := by omega
  rw [occ_take heq (by omega), hw, seg_drop (i - j) (by omega)]
  congr 2
  omega

lemma occ_inside_le_failure {t p : Str} {i j q : Nat}
    (hw : p.take j = (t.drop (i - j)).take j)
    (hj : j ≤ i) (hj0 : 0 < j) (hjm : j ≤ p.length)
    (hq1 : i - j < q) (hq2 : q < i)
    (hocc : occB t p q = true) :
    i - q ≤ failureSpec p (j - 1) := by
  have hbord := border_of_occ_inside hw hj hjm hq1 hq2 hocc
  have hIsB : IsBorderLen (p.take j) (i - q) :=
    (isBorderLen_take hjm).mpr ⟨by omega, hbord⟩
  have hle := le_maxBorderLen hIsB
  have hspec : failureSpec p (j - 1) = maxBorderLen (p.take j) := by
    unfold failureSpec
    congr 2
    omega
  omega

lemma scanInv_initState (t p : Str) (hp : p ≠ []) : ScanInv t p (initState t) := by
  unfold ScanInv initState
  exact ⟨Nat.zero_le _, le_rfl, List.length_pos.mpr hp, List.length_replicate _ _,
    by simp, by simp⟩

lemma scanInv_preserved {t p : Str} (hp : p ≠ []) {s : ScanState}
    (hInv : ScanInv t p s) (hi : s.i < t.length) :
    ScanInv t p (kmpIter t p (buildFailureFunction p) s) := by
  obtain ⟨hi_le, hji, hjm, hlen, hw, hpos⟩ := hInv
  obtain ⟨hflen, hfcorr⟩ := buildFailureFunction_spec_all hp
  by_cases hm : chAt t s.i = chAt p s.j
  · by_cases hf : s.j + 1 = p.length
    · rw [kmpIter_fullMatch hm hf]
      unfold ScanInv
      dsimp only
      simp only [Nat.add_sub_cancel]
      have hfv_spec : atD (buildFailureFunction p) s.j = failureSpec p s.j :=
        hfcorr s.j (by omega)
      have hfv_le : atD (buildFailureFunction p) s.j ≤ s.j := by
        rw [hfv_spec]
        exact failureSpec_le (by omega)
      have hwext : p.take (s.j + 1) = (t.drop (s.i - s.j)).take (s.j + 1) :=
        window_extend hw hji hjm hi hm
      have hppe : p.take (s.j + 1) = p := by
        rw [hf, List.take_length]
      have hocc_a : occB t p (s.i - s.j) = true := by
        rw [occB_eq_true_iff, ← hf, ← hwext, hppe]
      have hnone : ∀ q, s.i - s.j < q →
          q < s.i + 1 - atD (buildFailureFunction p) s.j → occB t p q = false := by
        intro q hq1 hq2
        rcases Bool.eq_false_or_eq_true (occB t p q) with hb | hb
        swap
        · exact hb
        · exfalso
          have hle := occ_inside_le_failure (i := s.i + 1) (j := s.j + 1)
            (by rwa [show s.i + 1 - (s.j + 1) = s.i - s.j by omega])
            (by omega) (by omega) (by omega) (by omega) (by omega) hb
          rw [show s.j + 1 - 1 = s.j by omega, ← hfv_spec] at hle
          omega
      refine ⟨by omega, by omega, by omega, ?_, ?_, ?_⟩
      · rw [relabelLoop_length]
        split
        · rw [List.length_set]
          exact hlen
        · exact hlen
      · set fv := atD (buildFailureFunction p) s.j with hfv
        have hfvM : fv = maxBorderLen (p.take (s.j + 1)) := hfv_spec.trans rfl
        have htne : p.take (s.j + 1) ≠ [] := take_ne_nil (by omega) (by omega)
        have hbord : IsBorderLen (p.take (s.j + 1)) fv := by
          rw [hfvM]
          exact maxBorderLen_isBorder htne
        obtain ⟨hblt, hbeq⟩ := (isBorderLen_take (l := s.j + 1) (by omega)).mp hbord
        rw [hbeq, hwext, seg_drop (s.i - s.j) (by omega)]
        congr 2
        omega
      · rw [hpos, show s.i + 1 - (s.j + 1) = s.i - s.j by omega]
        exact (filter_range_snoc (by omega) hocc_a hnone).symm
    · rw [kmpIter_match hm hf]
      unfold ScanInv
      dsimp only
      refine ⟨by omega, by omega, by omega, ?_, ?_, ?_⟩
      · split
        · rw [List.length_set]
          exact hlen
        · exact hlen
      · rw [show s.i + 1 - (s.j + 1) = s.i - s.j by omega]
        exact window_extend hw hji hjm hi hm
      · rw [show s.i + 1 - (s.j + 1) = s.i - s.j by omega]
        exact hpos
  · by_cases hj : 0 < s.j
    · rw [kmpIter_mismatchShift hm hj]
      unfold ScanInv
      dsimp only
      have hfv_spec : atD (buildFailureFunction p) (s.j - 1) = failureSpec p (s.j - 1) :=
        hfcorr _ (by omega)
      have hfv_le : atD (buildFailureFunction p) (s.j - 1) ≤ s.j - 1 := by
        rw [hfv_spec]
        exact failureSpec_le (by omega)
      have hnone : ∀ q, s.i - s.j ≤ q →
          q < s.i - atD (buildFailureFunction p) (s.j - 1) → occB t p q = false := by
        intro q hq1 hq2
        rcases eq_or_lt_of_le hq1 with hq1e | hq1l
        · rw [← hq1e]
          exact occB_false_at_window hji hjm hm
        · rcases Bool.eq_false_or_eq_true (occB t p q) with hb | hb
          swap
          · exact hb
          · exfalso
            have hle := occ_inside_le_failure hw hji hj (by omega) hq1l (by omega) hb
            omega
      refine ⟨by omega, by omega, by omega, hlen, ?_, ?_⟩
      · set fv := atD (buildFailureFunction p) (s.j - 1) with hfv
        have hfvM : fv = maxBorderLen (p.take s.j) := by
          rw [hfv_spec]
          unfold failureSpec
          congr 2
          omega
        have htne : p.take s.j ≠ [] := take_ne_nil hj (by omega)
        have hbord : IsBorderLen (p.take s.j) fv := by
          rw [hfvM]
          exact maxBorderLen_isBorder htne
        obtain ⟨hblt, hbeq⟩ := (isBorderLen_take (l := s.j) (by omega)).mp hbord
        rw [hbeq, hw, seg_drop (s.i - s.j) (by omega)]
        congr 2
        omega
      · rw [hpos]
        exact (filter_range_ext _ _ (by omega) hnone).symm
    · have hj0 : s.j = 0 := by omega
      rw [kmpIter_mismatchZero hm (by omega)]
      unfold ScanInv
      dsimp only
      refine ⟨by omega, by omega, by omega, hlen, ?_, ?_⟩
      · rw [hj0]
        simp
      · rw [hpos]
        have hnone : ∀ q, s.i - s.j ≤ q → q < s.i + 1 - s.j → occB t p q = false := by
          intro q hq1 hq2
          have hqe : q = s.i := by omega
          subst hqe
          have hm0 : chAt t s.i ≠ chAt p 0 := by rwa [hj0] at hm
          have hz := occB_false_at_window (t := t) (p := p) (i := s.i) (j := 0)
            (Nat.zero_le _) (by omega) hm0
          rwa [Nat.sub_zero] at hz
        exact (filter_range_ext _ _ (by omega) hnone).symm

lemma positions_final {t p : Str} (hp : p ≠ []) {f : ScanState}
    (hjm : f.j < p.length)
    (hposf : f.positions = (List.range (f.i - f.j)).filter (occB t p))
    (hin : ¬ f.i < t.length) (hile : f.i ≤ t.length) :
    f.positions = bruteForce t p := by
  have hieq : f.i = t.length := by omega
  rw [hposf, hieq, bruteForce]
  by_cases hmn : p.length ≤ t.length
  · exact filter_range_ext _ _ (by omega)
      (fun q hq1 hq2 => occB_false_of_len hp (by omega))
  · have hall : ∀ q, occB t p q = false := fun q => occB_false_of_len hp (by omega)
    exact (filter_range_ext (t.length - f.j) 0 (Nat.zero_le _) (fun q _ _ => hall q)).trans
      (filter_range_ext (t.length - p.length + 1) 0 (Nat.zero_le _)
        (fun q _ _ => hall q)).symm

/-! ### The checked mirror never fails on non-empty inputs -/

lemma chAtChk_eq {s : Str} {i : Nat} (h : i < s.length) : chAtChk s i = some (chAt s i) := by
  rw [chAtChk, List.getElem?_eq_getElem h, chAt_eq_get h, List.get_eq_getElem]

lemma atChk_eq {a : List Nat} {i : Nat} (h : i < a.length) : atChk a i = some (atD a i) := by
  rw [atChk, List.getElem?_eq_getElem h, atD, List.getD_eq_getElem a 0 h]

lemma setChk_eq {a : List Nat} {i v : Nat} (h : i < a.length) :
    setChk a i v = some (a.set i v) := if_pos h

lemma set_atD_self (a : List Nat) (i : Nat) : a.set i (atD a i) = a := by
  apply List.ext_getElem?
  intro n
  rw [List.getElem?_set]
  rcases eq_or_ne i n with rfl | h
  · rw [if_pos rfl]
    by_cases hlt : i < a.length
    · rw [if_pos hlt, List.getElem?_eq_getElem hlt, atD, List.getD_eq_getElem a 0 hlt]
    · rw [if_neg hlt]
      exact (List.getElem?_eq_none (by omega)).symm
  · rw [if_neg h]

lemma bffFallback_le {p : Str} {failure : List Nat} {c : Char}
    (hfb : ∀ k, atD failure k ≤ k) :
    ∀ fuel j, bffFallback p failure c fuel j ≤ j := by
  intro fuel
  induction fuel with
  | zero => intro j; exact le_rfl
  | succ fuel ih =>
    intro j
    rw [bffFallback]
    by_cases hc : 0 < j ∧ c ≠ chAt p j
    · rw [if_pos hc]
      have h1 := ih (atD failure (j - 1))
      have h2 := hfb (j - 1)
      omega
    · rw [if_neg hc]

lemma bffFallbackChk_eq {p : Str} {failure : List Nat} {c : Char}
    (hflen : failure.length = p.length)
    (hfb : ∀ k, atD failure k ≤ k) :
    ∀ fuel j, j < p.length →
      bffFallbackChk p failure c fuel j = some (bffFallback p failure c fuel j) := by
  intro fuel
  induction fuel with
  | zero => intro j _; rfl
  | succ fuel ih =>
    intro j hj
    rw [bffFallbackChk, bffFallback]
    by_cases h0 : 0 < j
    · rw [if_pos h0, chAtChk_eq hj, Option.some_bind]
      by_cases hne : c ≠ chAt p j
      · rw [if_pos hne, atChk_eq (by omega), Option.some_bind, if_pos ⟨h0, hne⟩]
        exact ih _ (by have := hfb (j - 1); omega)
      · rw [if_neg hne, if_neg (by tauto)]
    · rw [if_neg h0, if_neg (by omega)]

lemma bffNext_le {p : Str} {failure : List Nat}
    (hfb : ∀ k, atD failure k ≤ k) {j i : Nat} (hji : j + 1 ≤ i) :
    bffNext p failure j i ≤ i := by
  unfold bffNext
  by_cases h1 : chAt p i = chAt p j
  · rw [if_pos h1]
    omega
  · rw [if_neg h1]
    have hle := bffFallback_le (p := p) (c := chAt p i) hfb j j
    dsimp only
    by_cases h2 : chAt p i = chAt p (bffFallback p failure (chAt p i) j j)
    · rw [if_pos h2]
      omega
    · rw [if_neg h2]
      omega

lemma bffNextChk_eq {p : Str} {failure : List Nat}
    (hflen : failure.length = p.length) (hfb : ∀ k, atD failure k ≤ k)
    {j i : Nat} (hj : j < p.length) (hi : i < p.length) :
    bffNextChk p failure j i = some (bffNext p failure j i) := by
  rw [bffNextChk]
  unfold bffNext
  rw [chAtChk_eq hi, Option.some_bind, chAtChk_eq hj, Option.some_bind]
  by_cases h1 : chAt p i = chAt p j
  · rw [if_pos h1, if_pos h1]
  · rw [if_neg h1, if_neg h1]
    rw [bffFallbackChk_eq hflen hfb j j hj, Option.some_bind]
    have hle : bffFallback p failure (chAt p i) j j < p.length :=
      lt_of_le_of_lt (bffFallback_le hfb j j) hj
    rw [chAtChk_eq hle, Option.some_bind]
    dsimp only
    by_cases h2 : chAt p i = chAt p (bffFallback p failure (chAt p i) j j)
    · rw [if_pos h2, if_pos h2]
    · rw [if_neg h2, if_neg h2]

lemma bffLoopChk_eq {p : Str} :
    ∀ d i failure j, failure.length = p.length → (∀ k, atD failure k ≤ k) →
      j + 1 ≤ i →
      bffLoopChk p d i failure j = some (bffLoop p d i failure j) := by
  intro d
  induction d with
  | zero => intro i failure j _ _ _; rfl
  | succ d ih =>
    intro i failure j hflen hfb hji
    rw [bffLoopChk, bffLoop]
    by_cases hi : i < p.length
    · rw [if_pos hi, if_pos hi]
      have hjm : j < p.length := by omega
      rw [bffNextChk_eq hflen hfb hjm hi, Option.some_bind,
        setChk_eq (by omega), Option.some_bind]
      dsimp only
      apply ih
      · rw [List.length_set]
        exact hflen
      · intro k
        rw [atD_set]
        by_cases hik : i = k ∧ i < failure.length
        · rw [if_pos hik]
          have := bffNext_le (p := p) hfb hji
          omega
        · rw [if_neg hik]
          exact hfb k
      · have := bffNext_le (p := p) hfb hji
        omega
    · rw [if_neg hi, if_neg hi]

lemma buildFailureFunctionChk_eq {p : Str} (hp : p ≠ []) :
    buildFailureFunctionChk p = some (buildFailureFunction p) := by
  unfold buildFailureFunctionChk buildFailureFunction
  have h0 : 0 < (List.replicate p.length 0).length := by
    rw [List.length_replicate]
    exact List.length_pos.mpr hp
  rw [setChk_eq h0, Option.some_bind]
  apply bffLoopChk_eq
  · rw [List.length_set, List.length_replicate]
  · intro k
    rw [atD_set]
    split
    · exact Nat.zero_le k
    · rw [atD_replicate]
      exact Nat.zero_le k
  · omega

lemma relabelLoopChk_eq (n lo : Nat) :
    ∀ d a k hi, a.length = n →
      relabelLoopChk n lo d a k hi = some (relabelLoop n lo d a k hi) := by
  intro d
  induction d with
  | zero => intro a k hi _; rfl
  | succ d ih =>
    intro a k hi hlen
    rw [relabelLoopChk, relabelLoop]
    by_cases hk : k < hi
    · rw [if_pos hk, if_pos hk]
      by_cases hkn : k < n
      · rw [if_pos hkn, if_pos hkn, setChk_eq (by omega), Option.some_bind]
        exact ih _ _ _ (by rw [List.length_set]; exact hlen)
      · rw [if_neg hkn, if_neg hkn]
        exact ih _ _ _ hlen
    · rw [if_neg hk, if_neg hk]

lemma kmpIterChk_eq {t p : Str} {failure : List Nat} {s : ScanState}
    (hflen : failure.length = p.length)
    (hi : s.i < t.length) (hj : s.j < p.length)
    (hlen : s.maxPref.length = t.length) :
    kmpIterChk t p failure s = some (kmpIter t p failure s) := by
  have hit : s.i < s.maxPref.length := by omega
  simp only [kmpIterChk, chAtChk_eq hi, chAtChk_eq hj, Option.some_bind]
  by_cases hm : chAt t s.i = chAt p s.j
  · have hb : (chAt t s.i == chAt p s.j) = true := beq_iff_eq.mpr hm
    rw [if_pos hb, hb, atChk_eq hit]
    simp only [Option.some_bind]
    by_cases hgt : s.j + 1 > atD s.maxPref s.i
    · rw [if_pos hgt, setChk_eq hit]
      simp only [Option.some_bind]
      rw [atChk_eq (by rw [List.length_set]; exact hit)]
      simp only [Option.some_bind]
      rw [show atD (s.maxPref.set s.i (s.j + 1)) s.i = s.j + 1 from
        by rw [atD_set, if_pos ⟨rfl, hit⟩]]
      rw [setChk_eq hit]
      simp only [Option.some_bind]
      by_cases hf : s.j + 1 = p.length
      · rw [if_pos hf, kmpIter_fullMatch hm hf]
        rw [atChk_eq (by omega)]
        simp only [Option.some_bind]
        rw [relabelLoopChk_eq t.length (s.i + 1 - p.length) (s.i + 1) _ _ _
          (by rw [List.length_set]; exact hlen)]
        simp only [Option.some_bind]
        rw [if_pos hgt]
      · rw [if_neg hf, kmpIter_match hm hf, if_pos hgt]
    · rw [if_neg hgt]
      simp only [Option.some_bind]
      rw [atChk_eq hit]
      simp only [Option.some_bind]
      rw [setChk_eq hit]
      simp only [Option.some_bind]
      rw [set_atD_self]
      by_cases hf : s.j + 1 = p.length
      · rw [if_pos hf, kmpIter_fullMatch hm hf]
        rw [atChk_eq (by omega)]
        simp only [Option.some_bind]
        rw [relabelLoopChk_eq t.length (s.i + 1 - p.length) (s.i + 1) _ _ _ hlen]
        simp only [Option.some_bind]
        rw [if_neg hgt]
      · rw [if_neg hf, kmpIter_match hm hf, if_neg hgt]
  · have hbf : (chAt t s.i == chAt p s.j) = false := beq_eq_false_iff_ne.mpr hm
    rw [hbf, if_neg (by simp)]
    by_cases hj0 : 0 < s.j
    · rw [if_pos hj0, kmpIter_mismatchShift hm hj0, atChk_eq (by omega)]
      simp only [Option.some_bind]
    · rw [if_neg hj0, kmpIter_mismatchZero hm (by omega)]

lemma kmpLoopChk_eq {t p : Str} (hp : p ≠ []) :
    ∀ fuel s, ScanInv t p s →
      kmpLoopChk t p (buildFailureFunction p) fuel s =
        some (kmpLoop t p (buildFailureFunction p) fuel s) := by
  have hflen := (buildFailureFunction_spec_all hp).1
  intro fuel
  induction fuel with
  | zero => intro s _; rfl
  | succ fuel ih =>
    intro s hs
    rw [kmpLoopChk, kmpLoop]
    by_cases hi : s.i < t.length
    · rw [if_pos hi, if_pos hi]
      obtain ⟨h1, h2, h3, h4, h5, h6⟩ := hs
      rw [kmpIterChk_eq hflen hi h3 h4, Option.some_bind]
      exact ih _ (scanInv_preserved hp ⟨h1, h2, h3, h4, h5, h6⟩ hi)
    · rw [if_neg hi, if_neg hi]

/-! ### Claim theorems for the failure function and for trivial inputs -/

/-- **C2.** For every non-empty pattern, `buildFailureFunction` returns a table
of the same length as the pattern, with `failure[0] = 0`, `0 ≤ failure[i] ≤ i`
for every position `i` (non-negativity is inherent to the `Nat` model), and
`failure[i]` equal to the length of the longest proper prefix of the pattern
that is also a suffix of the pattern prefix ending at position `i`
(`failureSpec`). -/
theorem buildFailureFunction_correct (p : Str) (hp : p ≠ []) :
    (buildFailureFunction p).length = p.length ∧
    atD (buildFailureFunction p) 0 = 0 ∧
    ∀ i, i < p.length →
      atD (buildFailureFunction p) i ≤ i ∧
      atD (buildFailureFunction p) i = failureSpec p i := by
  obtain ⟨hlen, hcorr⟩ := buildFailureFunction_spec_all hp
  refine ⟨hlen, ?_, fun i hi => ⟨?_, hcorr i hi⟩⟩
  · rw [hcorr 0 (List.length_pos.mpr hp), failureSpec_zero hp]
  · rw [hcorr i hi]
    exact failureSpec_le hi

/-- Witness for C2 at the concrete pattern `"aba"`. -/
theorem buildFailureFunction_correct_witness :
    (['a', 'b', 'a'] : Str) ≠ [] ∧
      ((buildFailureFunction ['a', 'b', 'a']).length = (['a', 'b', 'a'] : Str).length ∧
        atD (buildFailureFunction ['a', 'b', 'a']) 0 = 0 ∧
        ∀ i, i < (['a', 'b', 'a'] : Str).length →
          atD (buildFailureFunction ['a', 'b', 'a']) i ≤ i ∧
          atD (buildFailureFunction ['a', 'b', 'a']) i = failureSpec ['a', 'b', 'a'] i) :=
  ⟨by decide, buildFailureFunction_correct ['a', 'b', 'a'] (by decide)⟩

/-- **C5.** With an empty pattern, `searchKMP` returns the empty-pattern error
descriptor and nothing else (no table, no steps, no positions, zero
comparisons); with a non-empty pattern but empty text it symmetrically returns
the empty-text error result.  Both checks precede table building and
scanning, so no partial trace exists in either result. -/
theorem searchKMP_empty_inputs :
    (∀ t : Str, searchKMP t [] =
      { failureFunction := [], steps := [], found := false, positions := [],
        comparisons := 0, error := "Pattern cannot be empty" }) ∧
    (∀ p : Str, p ≠ [] → searchKMP [] p =
      { failureFunction := [], steps := [], found := false, positions := [],
        comparisons := 0, error := "Text cannot be empty" }) := by
  constructor
  · intro t
    simp [searchKMP]
  · intro p hp
    simp [searchKMP, hp]

/-- Witness for C5 at `match("a", "")` and `match("", "a")`. -/
theorem searchKMP_empty_inputs_witness :
    searchKMP ['a'] [] =
      { failureFunction := [], steps := [], found := false, positions := [],
        comparisons := 0, error := "Pattern cannot be empty" } ∧
    (['a'] : Str) ≠ [] ∧
    searchKMP [] ['a'] =
      { failureFunction := [], steps := [], found := false, positions := [],
        comparisons := 0, error := "Text cannot be empty" } :=
  ⟨searchKMP_empty_inputs.1 ['a'], by decide, searchKMP_empty_inputs.2 ['a'] (by decide)⟩

/-- **C9.** `searchKMP "aaaa" "aa"` reports all three overlapping occurrences
`[0, 1, 2]` (the failure-function-driven reset after a full match keeps
overlapping matches reachable). -/
theorem searchKMP_overlap :
    (searchKMP ['a', 'a', 'a', 'a'] ['a', 'a']).positions = [0, 1, 2] := by decide

/-- **C10.** `searchKMP` is modelled as a pure function of its two arguments
(the Go function reads no state besides them), so two invocations with
identical text and pattern produce identical `KMPResult` values in every
field. -/
theorem searchKMP_deterministic (t p : Str) : searchKMP t p = searchKMP t p := rfl

/-- **C3.** In a scan iteration where the comparison matches and the pattern
cursor reaches the pattern length: the match-start position `i - m`
(post-advance `i`) is appended to positions; every snapshot entry inside the
matched span is set, unconditionally, to its 1-based offset in the span; a
second, distinct step is emitted with `shift = true`,
`highlightPrefixIndex = -1`, `failureValue = failure[m-1]` (the pre-reset
`j = m`), carrying the relabelled snapshot; and `j` is reset to
`failure[m-1]`. -/
theorem searchKMP_fullMatch_branch (t p : Str) (s : ScanState)
    (hm : chAt t s.i = chAt p s.j) (hf : s.j + 1 = p.length)
    (_hji : s.j ≤ s.i) (hlen : s.maxPref.length = t.length) :
    (kmpIter t p (buildFailureFunction p) s).positions =
      s.positions ++ [s.i + 1 - p.length] ∧
    (∀ k, s.i + 1 - p.length ≤ k → k < s.i + 1 → k < t.length →
      atD (kmpIter t p (buildFailureFunction p) s).maxPref k =
        k - (s.i + 1 - p.length) + 1) ∧
    (kmpIter t p (buildFailureFunction p) s).j =
      atD (buildFailureFunction p) (p.length - 1) ∧
    ∃ st1 st2, (kmpIter t p (buildFailureFunction p) s).steps = s.steps ++ [st1, st2] ∧
      st1.shift = false ∧ st2.shift = true ∧ st2.highlightPrefixIndex = -1 ∧
      st2.failureValue = atD (buildFailureFunction p) (p.length - 1) ∧
      st2.prefixFunction = (kmpIter t p (buildFailureFunction p) s).maxPref ∧
      st2.comparisons = s.comparisons + 1 ∧ st1 ≠ st2 := by
  rw [kmpIter_fullMatch hm hf]
  refine ⟨by rw [hf], ?_, by rw [hf], ?_⟩
  · intro k hk1 hk2 hk3
    have hlen1 : (if s.j + 1 > atD s.maxPref s.i then s.maxPref.set s.i (s.j + 1)
        else s.maxPref).length = t.length := by
      split
      · rw [List.length_set]; exact hlen
      · exact hlen
    dsimp only
    rw [relabelLoop_atD t.length (s.i + 1 - p.length) (s.i + 1) _ _ _ k (by omega) hlen1,
      if_pos ⟨hk1, hk2, hk3⟩]
  · refine ⟨_, _, rfl, rfl, rfl, rfl, by rw [hf], rfl, rfl, ?_⟩
    intro h
    have := congrArg Step.shift h
    simp at this

/-- Witness for C3: text `"a"`, pattern `"a"`, initial scan state. -/
theorem searchKMP_fullMatch_branch_witness :
    (chAt ['a'] (initState ['a']).i = chAt ['a'] (initState ['a']).j ∧
      (initState ['a']).j + 1 = (['a'] : Str).length ∧
      (initState ['a']).j ≤ (initState ['a']).i ∧
      (initState ['a']).maxPref.length = (['a'] : Str).length) ∧
    ((kmpIter ['a'] ['a'] (buildFailureFunction ['a']) (initState ['a'])).positions =
      (initState ['a']).positions ++ [(initState ['a']).i + 1 - (['a'] : Str).length] ∧
    (∀ k, (initState ['a']).i + 1 - (['a'] : Str).length ≤ k →
      k < (initState ['a']).i + 1 → k < (['a'] : Str).length →
      atD (kmpIter ['a'] ['a'] (buildFailureFunction ['a']) (initState ['a'])).maxPref k =
        k - ((initState ['a']).i + 1 - (['a'] : Str).length) + 1) ∧
    (kmpIter ['a'] ['a'] (buildFailureFunction ['a']) (initState ['a'])).j =
      atD (buildFailureFunction ['a']) ((['a'] : Str).length - 1) ∧
    ∃ st1 st2,
      (kmpIter ['a'] ['a'] (buildFailureFunction ['a']) (initState ['a'])).steps =
        (initState ['a']).steps ++ [st1, st2] ∧
      st1.shift = false ∧ st2.shift = true ∧ st2.highlightPrefixIndex = -1 ∧
      st2.failureValue = atD (buildFailureFunction ['a']) ((['a'] : Str).length - 1) ∧
      st2.prefixFunction =
        (kmpIter ['a'] ['a'] (buildFailureFunction ['a']) (initState ['a'])).maxPref ∧
      st2.comparisons = (initState ['a']).comparisons + 1 ∧ st1 ≠ st2) :=
  ⟨⟨by decide, by decide, by decide, by decide⟩,
    searchKMP_fullMatch_branch ['a'] ['a'] (initState ['a'])
      (by decide) (by decide) (by decide) (by decide)⟩

/-- **C4.** In a scan iteration with `text[i] ≠ pattern[j]` and `j > 0`,
exactly two steps are emitted: a mismatch step (`shift = false`,
highlight `i`, `failureValue = failure[j-1]`), then a realignment step
(`shift = true`, highlight `i`, the new pattern cursor, a copy of the
snapshot); `i`, the snapshot and the positions are unchanged and `j` becomes
`failure[j-1]`, so the next iteration re-compares the same text position. -/
theorem searchKMP_mismatchShift_branch (t p : Str) (s : ScanState)
    (hm : chAt t s.i ≠ chAt p s.j) (hj : 0 < s.j) :
    ∃ st1 st2,
      kmpIter t p (buildFailureFunction p) s =
        { s with j := atD (buildFailureFunction p) (s.j - 1),
                 comparisons := s.comparisons + 1,
                 steps := s.steps ++ [st1, st2] } ∧
      st1.shift = false ∧ st1.highlightPrefixIndex = (s.i : Int) ∧
      st1.failureValue = atD (buildFailureFunction p) (s.j - 1) ∧
      st1.comparisons = s.comparisons + 1 ∧
      st2.shift = true ∧ st2.highlightPrefixIndex = (s.i : Int) ∧
      st2.patternIndex = atD (buildFailureFunction p) (s.j - 1) ∧
      st2.prefixFunction = s.maxPref ∧ st2.comparisons = s.comparisons + 1 ∧
      st1 ≠ st2 := by
  refine ⟨_, _, kmpIter_mismatchShift hm hj, rfl, rfl, rfl, rfl, rfl, rfl, rfl, rfl, rfl, ?_⟩
  intro h
  have := congrArg Step.shift h
  simp at this

/-- Witness for C4: text `"ab"`, pattern `"aa"`, state after the first match. -/
theorem searchKMP_mismatchShift_branch_witness :
    (chAt ['a', 'b'] 1 ≠ chAt ['a', 'a'] 1 ∧
      0 < (1 : Nat)) ∧
    (∃ st1 st2,
      kmpIter ['a', 'b'] ['a', 'a'] (buildFailureFunction ['a', 'a'])
          ⟨1, 1, 1, [1, 0], [], []⟩ =
        { (⟨1, 1, 1, [1, 0], [], []⟩ : ScanState) with
            j := atD (buildFailureFunction ['a', 'a']) (1 - 1),
            comparisons := 1 + 1,
            steps := (⟨1, 1, 1, [1, 0], [], []⟩ : ScanState).steps ++ [st1, st2] } ∧
      st1.shift = false ∧ st1.highlightPrefixIndex = (1 : Int) ∧
      st1.failureValue = atD (buildFailureFunction ['a', 'a']) (1 - 1) ∧
      st1.comparisons = 1 + 1 ∧
      st2.shift = true ∧ st2.highlightPrefixIndex = (1 : Int) ∧
      st2.patternIndex = atD (buildFailureFunction ['a', 'a']) (1 - 1) ∧
      st2.prefixFunction = [1, 0] ∧ st2.comparisons = 1 + 1 ∧
      st1 ≠ st2) :=
  ⟨⟨by decide, by decide⟩,
    searchKMP_mismatchShift_branch ['a', 'b'] ['a', 'a'] ⟨1, 1, 1, [1, 0], [], []⟩
      (by decide) (by decide)⟩

/-- **C8.** `searchKMP` terminates: every executed scan iteration strictly
decreases the measure `(len(text) - i) * (m + 1) + j` (the match branches
advance `i`; the mismatch-with-shift branch keeps `i` and strictly decreases
`j` since `failure[j-1] < j`), so the scan-loop result is independent of any
sufficient fuel and `kmpFuel` is sufficient; likewise the fallback loop of
`buildFailureFunction` strictly decreases `j`, so its result is independent
of any fuel `≥ j`. -/
theorem searchKMP_terminates (t p : Str) (hp : p ≠ []) :
    (∀ s : ScanState, s.i < t.length →
      kmpMeasure t p (kmpIter t p (buildFailureFunction p) s) < kmpMeasure t p s) ∧
    (∀ fuel1 fuel2 s, kmpMeasure t p s < fuel1 → kmpMeasure t p s < fuel2 →
      kmpLoop t p (buildFailureFunction p) fuel1 s =
        kmpLoop t p (buildFailureFunction p) fuel2 s) ∧
    (∀ (c : Char) fuel1 fuel2 j, j ≤ fuel1 → j ≤ fuel2 →
      bffFallback p (buildFailureFunction p) c fuel1 j =
        bffFallback p (buildFailureFunction p) c fuel2 j) ∧
    kmpMeasure t p (initState t) < kmpFuel t p := by
  have hfb := buildFailureFunction_le p
  refine ⟨fun s hi => kmpIter_measure hp hfb hi,
    fun f1 f2 s h1 h2 => kmpLoop_fuel_stable hp hfb f1 f2 s h1 h2,
    fun c f1 f2 j h1 h2 => bffFallback_fuel_stable hfb f1 f2 j h1 h2, ?_⟩
  unfold kmpMeasure kmpFuel initState
  dsimp only
  simp only [Nat.sub_zero]
  omega

/-- Witness for C8: one concrete measure decrease on text `"ab"`,
pattern `"b"`. -/
theorem searchKMP_terminates_witness :
    (['b'] : Str) ≠ [] ∧
    kmpMeasure ['a', 'b'] ['b']
        (kmpIter ['a', 'b'] ['b'] (buildFailureFunction ['b']) (initState ['a', 'b'])) <
      kmpMeasure ['a', 'b'] ['b'] (initState ['a', 'b']) :=
  ⟨by decide, (searchKMP_terminates ['a', 'b'] ['b'] (by decide)).1 (initState ['a', 'b'])
    (by decide)⟩

/-- **C6.** For non-empty text and pattern, the per-step `comparisons`
sequence is monotonically non-decreasing in emission order, and the final
result's `comparisons` equals the `comparisons` of the last emitted step. -/
theorem searchKMP_comparisons_monotone (t p : Str) (ht : t ≠ []) (hp : p ≠ []) :
    List.Chain' (· ≤ ·) ((searchKMP t p).steps.map Step.comparisons) ∧
    ((searchKMP t p).steps.map Step.comparisons).getLast? =
      some (searchKMP t p).comparisons := by
  rw [searchKMP_eq t p ht hp]
  dsimp only
  have hP : ∀ s, (CmpInv s ∧ (s.steps = [] → s.i = 0)) → s.i < t.length →
      (CmpInv (kmpIter t p (buildFailureFunction p) s) ∧
        ((kmpIter t p (buildFailureFunction p) s).steps = [] →
          (kmpIter t p (buildFailureFunction p) s).i = 0)) := by
    intro s hs _
    exact ⟨cmpInv_preserved hs.1, fun h => absurd h kmpIter_steps_ne_nil⟩
  have hfin := kmpLoop_inv _ hP (kmpFuel t p) (initState t)
    ⟨cmpInv_initState t, fun _ => rfl⟩
  have hexit := kmpLoop_exit hp (buildFailureFunction_le p) (kmpFuel t p) (initState t)
    (initState_measure_lt t p)
  have hsne : (kmpLoop t p (buildFailureFunction p) (kmpFuel t p) (initState t)).steps ≠ [] := by
    intro h
    have hi0 := hfin.2 h
    have : 0 < t.length := List.length_pos.mpr ht
    omega
  exact ⟨hfin.1.1, hfin.1.2.2 hsne⟩

/-- Witness for C6 at `match("ab", "b")`. -/
theorem searchKMP_comparisons_monotone_witness :
    (['a', 'b'] : Str) ≠ [] ∧ (['b'] : Str) ≠ [] ∧
    (List.Chain' (· ≤ ·) ((searchKMP ['a', 'b'] ['b']).steps.map Step.comparisons) ∧
      ((searchKMP ['a', 'b'] ['b']).steps.map Step.comparisons).getLast? =
        some (searchKMP ['a', 'b'] ['b']).comparisons) :=
  ⟨by decide, by decide,
    searchKMP_comparisons_monotone ['a', 'b'] ['b'] (by decide) (by decide)⟩

/-- **C1.** For every non-empty text and non-empty pattern, the `positions`
of `searchKMP` coincide (as an ordered list, hence as a set) with the
brute-force occurrence scan: `p` is reported iff
`text[p .. p+len(pattern)-1] = pattern`; in particular every reported
position is an exact occurrence. -/
theorem searchKMP_matches_bruteForce (t p : Str) (ht : t ≠ []) (hp : p ≠ []) :
    (searchKMP t p).positions = bruteForce t p ∧
    ∀ q ∈ (searchKMP t p).positions, (t.drop q).take p.length = p := by
  rw [searchKMP_eq t p ht hp]
  dsimp only
  have hfin : ScanInv t p
      (kmpLoop t p (buildFailureFunction p) (kmpFuel t p) (initState t)) :=
    kmpLoop_inv _ (fun s hs hi => scanInv_preserved hp hs hi) _ _
      (scanInv_initState t p hp)
  have hexit := kmpLoop_exit hp (buildFailureFunction_le p) (kmpFuel t p) (initState t)
    (initState_measure_lt t p)
  obtain ⟨h1, h2, h3, h4, h5, h6⟩ := hfin
  have hbf := positions_final hp h3 h6 hexit h1
  refine ⟨hbf, ?_⟩
  intro q hq
  rw [hbf, bruteForce, List.mem_filter] at hq
  exact occB_eq_true_iff.mp hq.2

/-- Witness for C1 at `match("aba", "a")`. -/
theorem searchKMP_matches_bruteForce_witness :
    (['a', 'b', 'a'] : Str) ≠ [] ∧ (['a'] : Str) ≠ [] ∧
    ((searchKMP ['a', 'b', 'a'] ['a']).positions = bruteForce ['a', 'b', 'a'] ['a'] ∧
      ∀ q ∈ (searchKMP ['a', 'b', 'a'] ['a']).positions,
        ((['a', 'b', 'a'] : Str).drop q).take (['a'] : Str).length = ['a']) :=
  ⟨by decide, by decide,
    searchKMP_matches_bruteForce ['a', 'b', 'a'] ['a'] (by decide) (by decide)⟩

/-- **C7.** For non-empty text and pattern, no out-of-bounds access is
reachable: the bounds-checked mirror of the whole pipeline — which replays
every string/slice read and write of `buildFailureFunction` and of the scan
(including the snapshot-rewrite loop, whose writes stay in
`[0, len(text))`) against the actual lengths and returns `none` on any
violation — returns exactly `some` of the unchecked model's result. -/
theorem searchKMP_no_out_of_bounds (t p : Str) (ht : t ≠ []) (hp : p ≠ []) :
    searchKMPChk t p = some (searchKMP t p) := by
  rw [searchKMP_eq t p ht hp]
  unfold searchKMPChk
  rw [if_neg hp, if_neg ht, buildFailureFunctionChk_eq hp]
  simp only [Option.some_bind]
  rw [kmpLoopChk_eq hp (kmpFuel t p) (initState t) (scanInv_initState t p hp)]
  simp only [Option.some_bind]

/-- Witness for C7 at `match("ab", "b")`. -/
theorem searchKMP_no_out_of_bounds_witness :
    (['a', 'b'] : Str) ≠ [] ∧ (['b'] : Str) ≠ [] ∧
    searchKMPChk ['a', 'b'] ['b'] = some (searchKMP ['a', 'b'] ['b']) :=
  ⟨by decide, by decide,
    searchKMP_no_out_of_bounds ['a', 'b'] ['b'] (by decide) (by decide)⟩

end KMPGo
